import Mathlib

/-!
Verification of the StudioFlow local persistence core (`NodeStorage` in
`src/services/storage/node-storage.ts` together with
`src/services/storage/storage-utils.ts`).

The development shallowly embeds the storage engine: JSON documents are an
inductive value type, the data directory is an explicit state record, and each
storage operation is a pure function from state (plus a clock value and, where
the source can hit I/O failures, an explicit fault selector) to a result and a
new state.
-/

set_option maxRecDepth 100000

namespace StudioFlow

mutual

/-- Untyped JSON values, the dynamic documents the storage layer moves around.
`obj` keeps fields in insertion order, matching JavaScript object semantics. -/
inductive Json where
  | num (n : Int)
  | str (s : String)
  | bool (b : Bool)
  | null
  | arr (elems : JArr)
  | obj (fields : JObj)
deriving DecidableEq

/-- A JSON array: the elements in order. -/
inductive JArr where
  | nil
  | cons (hd : Json) (tl : JArr)
deriving DecidableEq

/-- A JSON object: key/value fields in insertion order. -/
inductive JObj where
  | nil
  | cons (k : String) (v : Json) (tl : JObj)
deriving DecidableEq

end

/-- Field lookup on a JSON object (`o.k` in JavaScript; `none` models
`undefined`). -/
def JObj.get : JObj → String → Option Json
  | .nil, _ => none
  | .cons k' v tl, k => if k' = k then some v else JObj.get tl k

/-- Setting one field via object spread, `{...o, k: v}`: an existing key keeps
its position and receives the new value, a new key is appended. -/
def JObj.set : JObj → String → Json → JObj
  | .nil, k, v => .cons k v .nil
  | .cons k' w tl, k, v => if k' = k then .cons k v tl else .cons k' w (JObj.set tl k v)

/-- `data.k` on an arbitrary JSON value: only objects have fields. -/
def jget : Json → String → Option Json
  | .obj fs, k => fs.get k
  | _, _ => none

/-- `{...base, k: v}` on an arbitrary JSON value: spreading a non-object
contributes no fields, so the result is the one-field object. -/
def objSet (base : Json) (k : String) (v : Json) : Json :=
  match base with
  | .obj fs => .obj (fs.set k v)
  | _ => .obj (.cons k v .nil)

/-- `data.metadata` with `undefined` spread to the empty object, as in
`{...data.metadata, f: v}`. -/
def metaOf (data : Json) : Json :=
  (jget data "metadata").getD (.obj .nil)

/-- Two-step field access `data.k1?.k2`. -/
def jget2 (data : Json) (k1 k2 : String) : Option Json :=
  (jget data k1).bind (fun v => jget v k2)

/-- JavaScript string escaping for the two characters JSON quoting must
escape in the strings this system stores. -/
def escChar (c : Char) : String :=
  if c = '\x22' then "\\\x22" else if c = '\\' then "\\\\" else String.singleton c

/-- Escape a whole string for JSON output. -/
def escapeStr (s : String) : String :=
  String.join (s.toList.map escChar)

mutual

/-- `JSON.stringify` (compact form, as used by `calculateChecksum` in
`storage-utils.ts`): deterministic serialization following field insertion
order. -/
def jsonStringify : Json → String
  | .num n => toString n
  | .str s => "\x22" ++ escapeStr s ++ "\x22"
  | .bool b => if b then "true" else "false"
  | .null => "null"
  | .arr xs => "[" ++ stringifyArr xs ++ "]"
  | .obj fs => "\x7b" ++ stringifyObj fs ++ "\x7d"

/-- Comma-separated serialization of array elements. -/
def stringifyArr : JArr → String
  | .nil => ""
  | .cons hd .nil => jsonStringify hd
  | .cons hd tl => jsonStringify hd ++ "," ++ stringifyArr tl

/-- Comma-separated serialization of object fields. -/
def stringifyObj : JObj → String
  | .nil => ""
  | .cons k v .nil => "\x22" ++ escapeStr k ++ "\x22:" ++ jsonStringify v
  | .cons k v tl => "\x22" ++ escapeStr k ++ "\x22:" ++ jsonStringify v ++ "," ++ stringifyObj tl

end

/-- JavaScript `ToInt32`: reduce an integer to the signed 32-bit range. -/
def toInt32 (n : Int) : Int :=
  let m := n % 4294967296
  if m < 2147483648 then m else m - 4294967296

/-- One step of the rolling hash in `calculateChecksum`
(`hash = ((hash << 5) - hash) + char; hash = hash & hash`). -/
def hashStep (h : Int) (c : Nat) : Int :=
  toInt32 (toInt32 (h * 32) - h + Int.ofNat c)

/-- The hashing loop. The accumulator is re-packed through a constructor
match at every iteration, which makes kernel evaluation strict per step —
matching the strict per-iteration update of the source's `for` loop. -/
def hashLoop : List Char → Int → Int
  | [], h => h
  | c :: cs, h =>
    match hashStep h c.toNat with
    | .ofNat n => hashLoop cs (.ofNat n)
    | .negSucc n => hashLoop cs (.negSucc n)

/-- The rolling 32-bit hash of a string, `charCodeAt` by `charCodeAt`. -/
def hashString (s : String) : Int :=
  hashLoop s.toList 0

/-- Lowercase hexadecimal digits of a natural number
(`Math.abs(hash).toString(16)`). -/
def hexRepr (n : Nat) : String :=
  String.mk (Nat.toDigits 16 n)

/-- `calculateChecksum` from `storage-utils.ts`: serialize the document and
hash the string, padding the hex form to 64 characters
(`hashStr.padStart(64, '0').substring(0, 64)`). This embeds the
deterministic fallback digest branch of the source; the `crypto.subtle`
SHA-256 branch differs only in which digest function is applied to the same
serialized string, which no claim inspects. -/
def calculateChecksum (data : Json) : String :=
  let hs := hexRepr (hashString (jsonStringify data)).natAbs
  (String.mk (List.replicate (64 - hs.length) '0') ++ hs).take 64

/-- `validateSchema` from `storage-utils.ts`: version is a number, the three
collections are arrays, config and metadata are truthy objects. -/
def validateSchema (data : Json) : Bool :=
  (match data with | .obj _ => true | .arr _ => true | _ => false) &&
  (match jget data "version" with | some (.num _) => true | _ => false) &&
  (match jget data "clients" with | some (.arr _) => true | _ => false) &&
  (match jget data "projects" with | some (.arr _) => true | _ => false) &&
  (match jget data "tasks" with | some (.arr _) => true | _ => false) &&
  (match jget data "config" with | some (.obj _) => true | some (.arr _) => true | _ => false) &&
  (match jget data "metadata" with | some (.obj _) => true | some (.arr _) => true | _ => false)

/-- The document with `metadata.checksum` cleared,
`{...data, metadata: {...data.metadata, checksum: ''}}`. -/
def clearChecksum (data : Json) : Json :=
  objSet data "metadata" (objSet (metaOf data) "checksum" (.str ""))

/-- `validateChecksum` from `storage-utils.ts`: recompute the digest over the
checksum-cleared document and compare it with `data.metadata.checksum`. -/
def validateChecksum (data : Json) : Bool :=
  jget2 data "metadata" "checksum" == some (.str (calculateChecksum (clearChecksum data)))

/-- `updateChecksum` from `storage-utils.ts`: clear the checksum field,
digest, and store the fresh digest in `metadata.checksum`. -/
def updateChecksum (data : Json) : Json :=
  let cleared := clearChecksum data
  objSet cleared "metadata" (objSet (metaOf cleared) "checksum" (.str (calculateChecksum cleared)))

/-! ### Time

Instants are milliseconds since the epoch. The two date renderings of the
source (`Date.toISOString` for metadata fields and
`formatTimestampForFilename` for backup file names) are modelled as
order-faithful injective encodings of the instant into a digit string, and
`new Date(s).getTime()` as the digit-collecting inverse. The source truncates
file names to second precision; the model keeps millisecond precision, which
only coarsens name collisions no claim depends on. -/

/-- `new Date(ms).toISOString()` as an order-faithful digit encoding. -/
def isoStr (n : Nat) : String := toString n

/-- `formatTimestampForFilename` from `storage-utils.ts`, as an order-faithful
digit encoding of the instant. -/
def fnameTs (n : Nat) : String := toString n

/-- `new Date(s).getTime()` on the encodings above: collect the digits. -/
def dateGetTime (s : String) : Nat :=
  s.toList.foldl (fun a c => if c.isDigit then a * 10 + (c.toNat - 48) else a) 0

/-! ### The data directory -/

/-- The bytes of one stored file: either a well-formed JSON serialization of a
value (two serializations are byte-equal exactly when the values are equal,
since `JSON.stringify` is deterministic), or unparseable bytes identified by a
tag. -/
inductive FileContent where
  | jsonC (v : Json)
  | corruptC (tag : Nat)
deriving DecidableEq

/-- A file name split into base name and extension, so that the source's
`file.endsWith('.json')` / `file.replace('.json', '')` pair becomes an exact
field test (faithful for every name this system writes). -/
structure FileName where
  base : String
  ext : String
deriving DecidableEq

/-- One directory entry of the backup directory. `readFails` marks a file on
which `fs.stat`/`fs.readFile` raises a non-ENOENT error (permissions, device
failure). -/
structure BFile where
  name : FileName
  content : FileContent
  size : Nat
  mtime : Nat
  readFails : Bool
deriving DecidableEq

/-- The state of the data directory: the live document file
(`studioflow.db.json`), the single staging file
(`temp/studioflow-write-temp.json`), and the backup directory (`none` when
the directory itself is missing). -/
structure FS where
  live : Option FileContent
  temp : Option FileContent
  backupDir : Option (List BFile)
deriving DecidableEq

/-- The errors the storage operations raise, one constructor per `throw` site
of the source (`ioWrite` stands for the backing store's own write/rename
failures, `enoent` for a missing file or directory). -/
inductive Err where
  | invalidSchema
  | ioWrite
  | parseError
  | tempCorrupted
  | enoent
  | notFoundBackup (id : String)
  | backupSchemaInvalid
  | noData
deriving DecidableEq

/-- Outcome of a storage operation: the returned value or the raised error,
together with the data directory state the operation leaves behind. -/
inductive Res (α : Type) where
  | ok (a : α) (fs : FS)
  | err (e : Err) (fs : FS)
deriving DecidableEq

/-- The state an operation leaves behind, successful or not. -/
def Res.fsOf : Res α → FS
  | .ok _ fs => fs
  | .err _ fs => fs

/-- Whether the operation raised. -/
def Res.isErr : Res α → Bool
  | .ok _ _ => false
  | .err _ _ => true

/-- The configuration record of `NodeStorage` (defaults 500 ms / 10 backups /
30 days; the compression flag is inert in the source). -/
structure Cfg where
  debounceMs : Nat
  maxBackups : Nat
  backupRetentionDays : Nat
deriving DecidableEq

/-- The default configuration. -/
def defaultCfg : Cfg := ⟨500, 10, 30⟩

/-- Fault selector for one `saveAtomic` run, naming which backing-store
primitive fails: the staging write, the staging read-back (`some c` means the
read returns bytes `c` instead of what was written), the backup copy of the
live file, or the final rename. -/
structure WriteFaults where
  stagingWrite : Bool
  stagingReadBack : Option FileContent
  backupCopy : Bool
  rename : Bool
deriving DecidableEq

/-- A fault-free run. -/
def noFaults : WriteFaults := ⟨false, none, false, false⟩

/-- Size in bytes of stored file content (the source stores the pretty-printed
serialization; the model measures the compact one, a size no claim reads). -/
def contentSize : FileContent → Nat
  | .jsonC v => (jsonStringify v).length
  | .corruptC tag => tag

/-- `fs.writeFile` into the backup directory: replace the file of the same
name or create a new one. -/
def writeBackupFile : List BFile → BFile → List BFile
  | [], bf => [bf]
  | e :: rest, bf => if e.name = bf.name then bf :: rest else e :: writeBackupFile rest bf

/-- Look up a backup-directory file by name (a missing directory behaves like
a missing file for reads). -/
def findBFile (fs : FS) (nm : FileName) : Option BFile :=
  (fs.backupDir.getD []).find? (fun e => e.name = nm)

/-! ### NodeStorage operations (`src/services/storage/node-storage.ts`) -/

/-- `NodeStorage.saveAtomic` (lines 118-167): validate, write staging, read
back and re-validate, copy the live file into a timestamp-keyed backup (any
failure there is swallowed by the source's inner `try`), then atomically
rename staging onto the live file. The `catch` block unlinks the staging file
before re-raising. Step 6 (`cleanOldBackups`) is launched detached
(`.catch(...)`, not awaited), so it is modelled as the separate function
`cleanOldBackups`. -/
def saveAtomicM (fs : FS) (data : Json) (f : WriteFaults) (now : Nat) : Res Unit :=
  if !validateSchema data then .err .invalidSchema { fs with temp := none }
  else if f.stagingWrite then .err .ioWrite { fs with temp := none }
  else
    let fs1 : FS := { fs with temp := some (.jsonC data) }
    match f.stagingReadBack.getD (.jsonC data) with
    | .corruptC _ => .err .parseError { fs1 with temp := none }
    | .jsonC v =>
      if !validateSchema v then .err .tempCorrupted { fs1 with temp := none }
      else
        let fs2 : FS :=
          match fs1.live, fs1.backupDir with
          | some c, some es =>
            if f.backupCopy then fs1
            else
              let bf : BFile := ⟨⟨"studioflow-" ++ fnameTs now, ".json"⟩, c, contentSize c, now, false⟩
              { fs1 with backupDir := some (writeBackupFile es bf) }
          | _, _ => fs1
        if f.rename then .err .ioWrite { fs2 with temp := none }
        else .ok () { fs2 with live := some (.jsonC data), temp := none }

/-- The `{id, timestamp, size, checksum}` record `listBackups` returns. -/
structure BackupInfo where
  id : String
  timestamp : String
  size : Nat
  checksum : String
deriving DecidableEq

/-- What one directory entry contributes to `listBackups`: nothing for a
non-`.json` name, an unreadable file, or unparseable bytes (the source skips
those with `continue`), otherwise the id, the timestamp
(`data.metadata?.lastBackup || stats.mtime.toISOString()`), the size and the
checksum (`data.metadata?.checksum || ''`). -/
def entryInfo (e : BFile) : Option BackupInfo :=
  if e.name.ext ≠ ".json" then none
  else if e.readFails then none
  else match e.content with
    | .corruptC _ => none
    | .jsonC v =>
      let ts := match jget2 v "metadata" "lastBackup" with
        | some (.str s) => if s = "" then isoStr e.mtime else s
        | _ => isoStr e.mtime
      let ck := match jget2 v "metadata" "checksum" with
        | some (.str s) => s
        | _ => ""
      some ⟨e.name.base, ts, e.size, ck⟩

/-- `NodeStorage.listBackups` (lines 297-330): a missing backup directory
yields `[]`, every other entry is folded through `entryInfo`. -/
def listBackupsM (fs : FS) : List BackupInfo :=
  match fs.backupDir with
  | none => []
  | some es => es.filterMap entryInfo

/-- The sort key `new Date(b.timestamp).getTime()`. -/
def tsKey (b : BackupInfo) : Nat := dateGetTime b.timestamp

/-- Comparator `(a, b) => time(a) - time(b)` as a relation: `a` at or before
`b` in the ascending order. -/
def ascLE (a b : BackupInfo) : Prop := tsKey a ≤ tsKey b

/-- Comparator `(b, a) => time(b) - time(a)` as a relation: `a` at or before
`b` in the descending order. -/
def descLE (a b : BackupInfo) : Prop := tsKey b ≤ tsKey a

instance : DecidableRel ascLE := fun a b => Nat.decLe _ _

instance : DecidableRel descLE := fun a b => Nat.decLe _ _

instance : IsTotal BackupInfo ascLE := ⟨fun a b => Nat.le_total (tsKey a) (tsKey b)⟩

instance : IsTrans BackupInfo ascLE := ⟨fun _ _ _ => Nat.le_trans⟩

instance : IsTotal BackupInfo descLE := ⟨fun a b => Nat.le_total (tsKey b) (tsKey a)⟩

instance : IsTrans BackupInfo descLE := ⟨fun _ _ _ h1 h2 => Nat.le_trans h2 h1⟩

/-- `backups.sort((a, b) => time(a) - time(b))`: oldest first. -/
def sortAsc (l : List BackupInfo) : List BackupInfo :=
  l.insertionSort ascLE

/-- `backups.sort((a, b) => time(b) - time(a))`: newest first. -/
def sortDesc (l : List BackupInfo) : List BackupInfo :=
  l.insertionSort descLE

/-- The retention horizon,
`cutoffDate.setDate(cutoffDate.getDate() - backupRetentionDays)`, in
milliseconds. -/
def cutoffMs (now days : Nat) : Nat := now - days * 86400000

/-- The ids the retention loop unlinks: walking the ascending list with index
`i`, a backup is evicted when its date is before the cutoff or
`i < backups.length - maxBackups` (`thr` is that difference, clamped at 0 the
way the JavaScript comparison is never true for a negative right side). -/
def remIds : List BackupInfo → Nat → Nat → Nat → List String
  | [], _, _, _ => []
  | b :: rest, i, cut, thr =>
    if tsKey b < cut ∨ i < thr then b.id :: remIds rest (i + 1) cut thr
    else remIds rest (i + 1) cut thr

/-- `NodeStorage.cleanOldBackups` (lines 335-368): list, sort oldest-first,
evict everything beyond the horizon or beyond the count cap. (All errors are
swallowed by the source; the model's sweep is total.) -/
def cleanOldBackups (fs : FS) (now : Nat) (cfg : Cfg) : FS :=
  let sorted := sortAsc (listBackupsM fs)
  let rem := remIds sorted 0 (cutoffMs now cfg.backupRetentionDays) (sorted.length - cfg.maxBackups)
  match fs.backupDir with
  | none => fs
  | some es =>
    { fs with backupDir := some (es.filter (fun e => !(e.name.ext = ".json" && rem.contains e.name.base))) }

/-- The per-candidate body of the recovery loop in `tryRestoreFromBackup`:
read `${id}.json`, parse, `validateSchema`, `validateChecksum`; `none` when
any step fails (the source's `continue`). -/
def backupRead (fs : FS) (b : BackupInfo) : Option Json :=
  match findBFile fs ⟨b.id, ".json"⟩ with
  | none => none
  | some e =>
    if e.readFails then none
    else match e.content with
      | .corruptC _ => none
      | .jsonC v => if validateSchema v && validateChecksum v then some v else none

/-- The recovery loop of `NodeStorage.tryRestoreFromBackup` (lines 217-235)
over an already-sorted candidate list: the first candidate that reads,
validates and verifies is written directly over the live file
(`fs.writeFile(this.dataFile, content)`) and returned. -/
def restoreScan (fs : FS) : List BackupInfo → Option Json × FS
  | [] => (none, fs)
  | b :: rest =>
    match backupRead fs b with
    | none => restoreScan fs rest
    | some v => (some v, { fs with live := some (.jsonC v) })

/-- `NodeStorage.tryRestoreFromBackup` (lines 207-238): list the backups,
sort newest-first, scan. -/
def tryRestoreFromBackupM (fs : FS) : Option Json × FS :=
  restoreScan fs (sortDesc (listBackupsM fs))

/-- Whether the live bytes make `load` fall into recovery: unparseable,
schema-invalid, or checksum-failing. -/
def liveBad : FileContent → Bool
  | .corruptC _ => true
  | .jsonC v => !validateSchema v || !validateChecksum v

/-- `NodeStorage.load` (lines 172-202): a missing live file returns `null`
(first run); unparseable, schema-invalid or checksum-failing live bytes go to
backup recovery; valid bytes are returned unchanged. -/
def loadM (fs : FS) : Option Json × FS :=
  match fs.live with
  | none => (none, fs)
  | some (.corruptC _) => tryRestoreFromBackupM fs
  | some (.jsonC v) =>
    if !validateSchema v then tryRestoreFromBackupM fs
    else if !validateChecksum v then tryRestoreFromBackupM fs
    else (some v, fs)

/-- `NodeStorage.createBackup` (lines 243-267): `load()` the current data
(failing with the `'Nenhum dado para fazer backup'` error when it yields
`null`), stamp `metadata.lastBackup` with the current time, write the
snapshot under `backup-<timestamp>.json`, then await `cleanOldBackups` and
return the id. Note the stored bytes are the lastBackup-stamped document
while its `checksum` field is left untouched. -/
def createBackupM (fs : FS) (now : Nat) (cfg : Cfg) : Res String :=
  match loadM fs with
  | (none, fs1) => .err .noData fs1
  | (some v, fs1) =>
    let backupId := "backup-" ++ fnameTs now
    let backupData := objSet v "metadata" (objSet (metaOf v) "lastBackup" (.str (isoStr now)))
    match fs1.backupDir with
    | none => .err .enoent fs1
    | some es =>
      let bf : BFile :=
        ⟨⟨backupId, ".json"⟩, .jsonC backupData, (jsonStringify backupData).length, now, false⟩
      let fs2 : FS := { fs1 with backupDir := some (writeBackupFile es bf) }
      .ok backupId (cleanOldBackups fs2 now cfg)

/-- `NodeStorage.restoreBackup` (lines 272-292): read `${backupId}.json`
(ENOENT becomes the `'Backup ... não encontrado'` error; other read errors
are re-raised), parse, validate the schema (failing with
`'Schema do backup inválido'`), and promote the parsed document through
`saveAtomic`. -/
def restoreBackupM (fs : FS) (backupId : String) (f : WriteFaults) (now : Nat) : Res Unit :=
  match findBFile fs ⟨backupId, ".json"⟩ with
  | none => .err (.notFoundBackup backupId) fs
  | some e =>
    if e.readFails then .err .ioWrite fs
    else match e.content with
      | .corruptC _ => .err .parseError fs
      | .jsonC v =>
        if !validateSchema v then .err .backupSchemaInvalid fs
        else saveAtomicM fs v f now

/-! ### The write queue (`NodeStorage.save` / `enqueueWrite` /
`processQueue` / `flush`)

`save` pushes one operation per call onto `writeQueue`; `processQueue` runs
the queued operations strictly one after another, swallowing their errors;
each operation first sleeps `debounceMs`, then stamps `metadata.lastSync`,
refreshes the checksum and calls `saveAtomic`. The queue is modelled as the
list of pending documents in arrival order; `now` advances by one instant per
processed operation. -/

/-- The document a queued `save(data)` operation hands to `saveAtomic`:
`updateChecksum({...data, metadata: {...data.metadata, lastSync: now}})`
(lines 103-109). -/
def refreshWithSync (data : Json) (now : Nat) : Json :=
  updateChecksum (objSet data "metadata" (objSet (metaOf data) "lastSync" (.str (isoStr now))))

/-- `NodeStorage.processQueue` (lines 75-92) over the pending documents:
run each queued save in order, collecting the list of documents actually
persisted (a failed `saveAtomic` is logged and skipped). -/
def processQueueM (fs : FS) : List Json → Nat → FS × List Json
  | [], _ => (fs, [])
  | d :: rest, now =>
    let d' := refreshWithSync d now
    match saveAtomicM fs d' noFaults now with
    | .ok _ fs' =>
      let (fsF, ws) := processQueueM fs' rest (now + 1)
      (fsF, d' :: ws)
    | .err _ fs' =>
      let (fsF, ws) := processQueueM fs' rest (now + 1)
      (fsF, ws)

/-- `NodeStorage.flush` (lines 410-415): keep processing until the queue is
empty — every pending operation runs to completion before `flush` resolves. -/
def flushM (fs : FS) (pending : List Json) (now : Nat) : FS × List Json :=
  processQueueM fs pending now

/-- The persisted documents of a queue run, as `processQueueM` reports them. -/
def refreshedDocs : List Json → Nat → List Json
  | [], _ => []
  | d :: rest, now => refreshWithSync d now :: refreshedDocs rest (now + 1)

/-- The live content after a queue run drains, starting from a default. -/
def lastLive (dflt : Option FileContent) : List Json → Nat → Option FileContent
  | [], _ => dflt
  | d :: rest, now => lastLive (some (.jsonC (refreshWithSync d now))) rest (now + 1)

/-! ### Concrete documents and directory states used as test inputs -/

/-- A small well-formed document in the persisted shape
`{version, clients, projects, tasks, config, metadata}`. -/
def mkDoc (ver : Int) (sync back ck : String) : Json :=
  .obj (.cons "version" (.num ver)
    (.cons "clients" (.arr .nil)
      (.cons "projects" (.arr .nil)
        (.cons "tasks" (.arr .nil)
          (.cons "config" (.obj .nil)
            (.cons "metadata"
              (.obj (.cons "lastSync" (.str sync)
                (.cons "lastBackup" (.str back)
                  (.cons "checksum" (.str ck) .nil)))) .nil))))))

/-- A valid document whose stored checksum verifies. -/
def docA : Json := updateChecksum (mkDoc 1 "1" "1" "")

/-- A second valid, checksum-consistent document, different from `docA`. -/
def docB : Json := updateChecksum (mkDoc 2 "2" "2" "")

/-- A third valid document (checksum field left stale on purpose). -/
def docC : Json := mkDoc 3 "3" "3" "zz"

/-- A structurally invalid document (empty object). -/
def docBad : Json := .obj .nil

/-- A parseable backup-directory entry carrying `metadata.lastBackup = t`. -/
def bakEntry (idBase : String) (t : Nat) : BFile :=
  ⟨⟨idBase, ".json"⟩,
   .jsonC (.obj (.cons "metadata" (.obj (.cons "lastBackup" (.str (toString t)) .nil)) .nil)),
   1, t, false⟩

/-- A backup-directory entry holding a full, checksum-consistent document. -/
def goodBak (idBase : String) (v : Json) (t : Nat) : BFile :=
  ⟨⟨idBase, ".json"⟩, .jsonC v, (jsonStringify v).length, t, false⟩

/-- Whether the staged-bytes read-back fails re-validation: the bytes read
back are unparseable or parse to a schema-invalid document. -/
def readBackFails (f : WriteFaults) : Bool :=
  match f.stagingReadBack with
  | some (.corruptC _) => true
  | some (.jsonC w) => !validateSchema w
  | none => false

/-- The errors of the spec's StructuralError class: a document whose bytes or
shape are wrong. -/
def structuralErr : Err → Bool
  | .invalidSchema => true
  | .parseError => true
  | .tempCorrupted => true
  | .backupSchemaInvalid => true
  | _ => false

/-- `{...data, metadata: {...data.metadata, lastBackup: now}}`, the snapshot
document `createBackup` stores. -/
def bumpLastBackup (v : Json) (now : Nat) : Json :=
  objSet v "metadata" (objSet (metaOf v) "lastBackup" (.str (isoStr now)))

/-- Whether a backup with the given id is present in the backup directory. -/
def survives (fs : FS) (idBase : String) : Bool :=
  (fs.backupDir.getD []).any (fun e => e.name == ⟨idBase, ".json"⟩)

/-- A directory whose live document is `docA` and whose backup directory is
empty. -/
def fsLiveA : FS := ⟨some (.jsonC docA), none, some []⟩

/-- The fault selector in which only the backup copy of the live file fails. -/
def backupCopyFault : WriteFaults := ⟨false, none, true, false⟩

/-- A verifying backup of `docA` under id `b1`. -/
def bakGoodB1 : BFile := goodBak "b1" docA 5

/-- No live document, one verifying backup. -/
def fsNoLiveGoodBak : FS := ⟨none, none, some [bakGoodB1]⟩

/-- Corrupt live document, one verifying backup. -/
def fsCorruptGoodBak : FS := ⟨some (.corruptC 0), none, some [bakGoodB1]⟩

/-- A first run: nothing was ever written. -/
def fsFirstRun : FS := ⟨none, none, some []⟩

/-- Corrupt live document and one backup that exists but fails verification
(stale checksum), so recovery is exhausted. -/
def fsExhausted : FS := ⟨some (.corruptC 7), none, some [goodBak "bx" docC 3]⟩

/-- Live document `docA`, one verifying backup of `docB` under id `b1`. -/
def fsRestoreA : FS := ⟨some (.jsonC docA), none, some [goodBak "b1" docB 5]⟩

/-- Live document `docA`, one backup whose stored bytes are corrupt. -/
def fsRestoreBad : FS := ⟨some (.jsonC docA), none, some [⟨⟨"bc", ".json"⟩, .corruptC 3, 3, 4, false⟩]⟩

/-- The spec's recovery-chain scenario: corrupt live document; the newest
backup (`bnew`, listed at instant 3) carries a stale checksum and fails
verification, the second-newest (`bmid`, instant 2) verifies, and the oldest
(`bold`) holds unparseable bytes. -/
def fsChain : FS :=
  ⟨some (.corruptC 1), none, some
    [⟨⟨"bnew", ".json"⟩, .jsonC docC, 9, 30, false⟩,
     ⟨⟨"bmid", ".json"⟩, .jsonC docB, 9, 20, false⟩,
     ⟨⟨"bold", ".json"⟩, .corruptC 4, 4, 10, false⟩]⟩

/-- Fifteen parseable backups, timestamps 101..115 ms. -/
def fs15 : FS :=
  ⟨none, none, some ((List.range 15).map (fun i => bakEntry ("a" ++ toString (101 + i)) (101 + i)))⟩

/-- Twelve backups at 1..12 ms and three at 101..103 ms. -/
def fs312 : FS :=
  ⟨none, none, some (((List.range 12).map (fun i => bakEntry ("o" ++ toString (1 + i)) (1 + i)))
    ++ ((List.range 3).map (fun i => bakEntry ("n" ++ toString (101 + i)) (101 + i))))⟩

/-- An instant whose 30-day retention cutoff is 100 ms, so timestamps
101..115 are inside the horizon and 1..12 outside. -/
def nowH : Nat := 30 * 86400000 + 100

/-- The ten newest of the `fs15` backups. -/
def keep15 : List BFile := (List.range 10).map (fun i => bakEntry ("a" ++ toString (106 + i)) (106 + i))

/-- The three in-horizon `fs312` backups. -/
def keep312 : List BFile := (List.range 3).map (fun i => bakEntry ("n" ++ toString (101 + i)) (101 + i))

/-- A verifying `.json` entry for the listing tests. -/
def entryGood : BFile := goodBak "g" docA 2

/-- A `.json` entry with unparseable bytes. -/
def entryCorrupt : BFile := ⟨⟨"bad", ".json"⟩, .corruptC 1, 1, 1, false⟩

/-- A non-`.json` entry. -/
def entryTxt : BFile := ⟨⟨"notes", ".txt"⟩, .jsonC docA, 1, 1, false⟩

/-- A `.json` entry whose stat/read raises. -/
def entryLocked : BFile := ⟨⟨"locked", ".json"⟩, .jsonC docA, 1, 1, true⟩

/-- The returned value of a successful operation. -/
def okId : Res String → Option String
  | .ok a _ => some a
  | .err _ _ => none

/-- Whether every listed backup of a state reads, validates and verifies. -/
def allCandidatesPass (fs : FS) : Bool :=
  (listBackupsM fs).all (fun b => (backupRead fs b).isSome)

/-! ### Field-update algebra -/

theorem JObj.get_set_self : ∀ (o : JObj) (k : String) (v : Json),
    (o.set k v).get k = some v
  | .nil, k, v => by simp [JObj.set, JObj.get]
  | .cons k' w tl, k, v => by
    by_cases h : k' = k
    · simp [JObj.set, JObj.get, h]
    · simp [JObj.set, JObj.get, h, JObj.get_set_self tl k v]

theorem JObj.get_set_ne : ∀ (o : JObj) (k k' : String) (v : Json), k' ≠ k →
    (o.set k v).get k' = o.get k'
  | .nil, k, k', v, h => by simp [JObj.set, JObj.get, Ne.symm h]
  | .cons k'' w tl, k, k', v, h => by
    by_cases h2 : k'' = k
    · subst h2
      simp [JObj.set, JObj.get, Ne.symm h]
    · by_cases h3 : k'' = k'
      · simp [JObj.set, JObj.get, h2, h3, h]
      · simp [JObj.set, JObj.get, h2, h3, JObj.get_set_ne tl k k' v h]

theorem jget_objSet_self (d : Json) (k : String) (v : Json) :
    jget (objSet d k v) k = some v := by
  cases d <;> simp [objSet, jget, JObj.get, JObj.get_set_self]

theorem jget_objSet_ne (d : Json) (k k' : String) (v : Json) (h : k' ≠ k) :
    jget (objSet d k v) k' = jget d k' := by
  cases d <;>
    simp [objSet, jget, JObj.get, JObj.get_set_ne _ _ _ _ h, Ne.symm h]

theorem metaOf_objSet (d : Json) (v : Json) :
    metaOf (objSet d "metadata" v) = v := by
  simp [metaOf, jget_objSet_self]

theorem objSet_is_obj (d : Json) (k : String) (v : Json) :
    ∃ fs, objSet d k v = .obj fs := by
  cases d <;> exact ⟨_, rfl⟩

/-- Replacing `metadata` by an object keeps a document schema-valid. -/
theorem validateSchema_set_meta (d : Json) (m : Json) (hm : ∃ fs, m = Json.obj fs)
    (h : validateSchema d = true) : validateSchema (objSet d "metadata" m) = true := by
  obtain ⟨mf, rfl⟩ := hm
  obtain ⟨df, hd⟩ := objSet_is_obj d "metadata" (.obj mf)
  simp only [validateSchema, Bool.and_eq_true] at h ⊢
  obtain ⟨⟨⟨⟨⟨⟨h1, h2⟩, h3⟩, h4⟩, h5⟩, h6⟩, h7⟩ := h
  refine ⟨⟨⟨⟨⟨⟨?_, ?_⟩, ?_⟩, ?_⟩, ?_⟩, ?_⟩, ?_⟩
  · rw [hd]
  · rw [jget_objSet_ne d _ _ _ (by decide)]; exact h2
  · rw [jget_objSet_ne d _ _ _ (by decide)]; exact h3
  · rw [jget_objSet_ne d _ _ _ (by decide)]; exact h4
  · rw [jget_objSet_ne d _ _ _ (by decide)]; exact h5
  · rw [jget_objSet_ne d _ _ _ (by decide)]; exact h6
  · rw [jget_objSet_self]

/-- `updateChecksum` keeps a document schema-valid. -/
theorem validateSchema_updateChecksum (d : Json) (h : validateSchema d = true) :
    validateSchema (updateChecksum d) = true := by
  unfold updateChecksum clearChecksum
  exact validateSchema_set_meta _ _ (objSet_is_obj _ _ _)
    (validateSchema_set_meta _ _ (objSet_is_obj _ _ _) h)

/-- The refreshed document a queued save persists is schema-valid whenever the
submitted one is. -/
theorem validateSchema_refreshWithSync (d : Json) (now : Nat) (h : validateSchema d = true) :
    validateSchema (refreshWithSync d now) = true := by
  unfold refreshWithSync
  exact validateSchema_updateChecksum _ (validateSchema_set_meta _ _ (objSet_is_obj _ _ _) h)

/-! ### Behavior of `saveAtomic` -/

/-- The new file handed to `writeBackupFile` ends up in the directory. -/
theorem mem_writeBackupFile : ∀ (es : List BFile) (bf : BFile), bf ∈ writeBackupFile es bf
  | [], bf => by simp [writeBackupFile]
  | e :: rest, bf => by
    by_cases h : e.name = bf.name
    · simp [writeBackupFile, h]
    · simp [writeBackupFile, h, mem_writeBackupFile rest bf]

/-- Writing a file under a fresh name appends it. -/
theorem writeBackupFile_fresh : ∀ (es : List BFile) (bf : BFile),
    (∀ e ∈ es, e.name ≠ bf.name) → writeBackupFile es bf = es ++ [bf]
  | [], bf, _ => by simp [writeBackupFile]
  | e :: rest, bf, h => by
    have he : e.name ≠ bf.name := h e (by simp)
    simp [writeBackupFile, he,
      writeBackupFile_fresh rest bf (fun e' he' => h e' (by simp [he']))]

/-- A write grows the directory by at most one entry. -/
theorem length_writeBackupFile_le : ∀ (es : List BFile) (bf : BFile),
    (writeBackupFile es bf).length ≤ es.length + 1
  | [], bf => by simp [writeBackupFile]
  | e :: rest, bf => by
    by_cases h : e.name = bf.name
    · simp [writeBackupFile, h]
    · simp only [writeBackupFile, h, if_false, List.length_cons]
      have := length_writeBackupFile_le rest bf
      omega

/-- A fault-free `saveAtomic` of a valid document succeeds and replaces the
live file, leaving no staging file behind. -/
theorem saveAtomicM_noFaults_ok (fs : FS) (d : Json) (now : Nat)
    (h : validateSchema d = true) :
    ∃ fs', saveAtomicM fs d noFaults now = .ok () fs' ∧
      fs'.live = some (.jsonC d) ∧ fs'.temp = none := by
  unfold saveAtomicM noFaults
  cases hl : fs.live <;> cases hb : fs.backupDir <;>
    simp [h, hl, hb]

/-- A fault-free `saveAtomic` of a valid document, with a live file and a
backup directory present: the exact resulting state, including the pre-write
backup copy of the old live file. -/
theorem saveAtomicM_noFaults_full (fs : FS) (d : Json) (now : Nat) (c : FileContent)
    (es : List BFile) (h : validateSchema d = true) (hl : fs.live = some c)
    (hb : fs.backupDir = some es) :
    saveAtomicM fs d noFaults now =
      .ok () ⟨some (.jsonC d), none,
        some (writeBackupFile es
          ⟨⟨"studioflow-" ++ fnameTs now, ".json"⟩, c, contentSize c, now, false⟩)⟩ := by
  obtain ⟨lv, tm, bd⟩ := fs
  simp only at hl hb
  subst hl; subst hb
  simp [saveAtomicM, noFaults, h]

/-- Any failing `saveAtomic` run leaves the live file byte-for-byte unchanged
and discards the staging file. -/
theorem saveAtomicM_err_unchanged (fs : FS) (d : Json) (f : WriteFaults) (now : Nat)
    (e : Err) (fs' : FS) (h : saveAtomicM fs d f now = .err e fs') :
    fs'.live = fs.live ∧ fs'.temp = none := by
  unfold saveAtomicM at h
  by_cases hv : validateSchema d
  · simp [hv] at h
    by_cases hw : f.stagingWrite
    · simp [hw] at h
      obtain ⟨-, rfl⟩ := h
      exact ⟨rfl, rfl⟩
    · simp [hw] at h
      cases hr : f.stagingReadBack.getD (.jsonC d) with
      | corruptC tag =>
        simp [hr] at h
        obtain ⟨-, rfl⟩ := h
        exact ⟨rfl, rfl⟩
      | jsonC w =>
        simp [hr] at h
        by_cases hvw : validateSchema w
        · simp [hvw] at h
          by_cases hrn : f.rename
          · simp [hrn] at h
            obtain ⟨-, rfl⟩ := h
            cases hl : fs.live <;> cases hb : fs.backupDir <;>
              simp [hl, hb] <;> by_cases hbc : f.backupCopy <;> simp [hbc, hl]
          · simp [hrn] at h
        · simp [hvw] at h
          obtain ⟨-, rfl⟩ := h
          exact ⟨rfl, rfl⟩
  · simp [hv] at h
    obtain ⟨-, rfl⟩ := h
    exact ⟨rfl, rfl⟩

/-! ### Behavior of the write queue -/

/-- Processing a queue of valid documents persists every one of them in
order, and leaves the last one as the live document. -/
theorem processQueueM_spec : ∀ (docs : List Json) (fs : FS) (now : Nat),
    (∀ d ∈ docs, validateSchema d = true) →
    (processQueueM fs docs now).2 = refreshedDocs docs now ∧
    (processQueueM fs docs now).1.live = lastLive fs.live docs now
  | [], fs, now, _ => by simp [processQueueM, refreshedDocs, lastLive]
  | d :: rest, fs, now, h => by
    have hd : validateSchema (refreshWithSync d now) = true :=
      validateSchema_refreshWithSync d now (h d (by simp))
    obtain ⟨fs', heq, hlive, -⟩ := saveAtomicM_noFaults_ok fs (refreshWithSync d now) now hd
    have ih := processQueueM_spec rest fs' (now + 1) (fun d' hd' => h d' (by simp [hd']))
    refine ⟨?_, ?_⟩
    · simp [processQueueM, heq, refreshedDocs, ih.1]
    · simp [processQueueM, heq, lastLive, ih.2, hlive]

/-- The live content after draining a nonempty queue is the refresh of the
last submitted document, stamped with the instant of its slot. -/
theorem lastLive_append : ∀ (xs : List Json) (d : Json) (dflt : Option FileContent) (now : Nat),
    lastLive dflt (xs ++ [d]) now = some (.jsonC (refreshWithSync d (now + xs.length)))
  | [], d, dflt, now => by simp [lastLive]
  | x :: xs, d, dflt, now => by
    have h2 : now + 1 + xs.length = now + (x :: xs).length := by simp; omega
    calc lastLive dflt ((x :: xs) ++ [d]) now
        = lastLive (some (.jsonC (refreshWithSync x now))) (xs ++ [d]) (now + 1) := rfl
      _ = some (.jsonC (refreshWithSync d (now + 1 + xs.length))) := lastLive_append xs d _ (now + 1)
      _ = some (.jsonC (refreshWithSync d (now + (x :: xs).length))) := by rw [h2]

/-! ### Behavior of the retention sweep -/

/-- Membership in the eviction list: an id is unlinked exactly when some
position of the (sorted) listing holds a backup with that id whose date is
before the cutoff or whose index is below the length-minus-cap threshold. -/
theorem mem_remIds : ∀ (l : List BackupInfo) (i cut thr : Nat) (s : String),
    s ∈ remIds l i cut thr ↔
      ∃ j b, l.get? j = some b ∧ b.id = s ∧ (tsKey b < cut ∨ i + j < thr)
  | [], i, cut, thr, s => by simp [remIds]
  | b :: rest, i, cut, thr, s => by
    have ih := mem_remIds rest (i + 1) cut thr s
    by_cases hc : tsKey b < cut ∨ i < thr
    · rw [remIds, if_pos hc]
      constructor
      · intro hmem
        rcases List.mem_cons.mp hmem with h1 | h2
        · exact ⟨0, b, rfl, h1.symm, by omega⟩
        · obtain ⟨j, b', hg, hid, hcond⟩ := ih.mp h2
          exact ⟨j + 1, b', by simpa using hg, hid, hcond.imp_right (fun hh => by omega)⟩
      · rintro ⟨j, b', hg, hid, hcond⟩
        cases j with
        | zero =>
          simp only [List.get?] at hg
          cases hg
          exact List.mem_cons.mpr (Or.inl hid.symm)
        | succ j' =>
          refine List.mem_cons.mpr (Or.inr (ih.mpr ⟨j', b', by simpa using hg, hid, ?_⟩))
          exact hcond.imp_right (fun hh => by omega)
    · rw [remIds, if_neg hc]
      constructor
      · intro hmem
        obtain ⟨j, b', hg, hid, hcond⟩ := ih.mp hmem
        exact ⟨j + 1, b', by simpa using hg, hid, hcond.imp_right (fun hh => by omega)⟩
      · rintro ⟨j, b', hg, hid, hcond⟩
        cases j with
        | zero =>
          simp only [List.get?] at hg
          cases hg
          exact absurd (hcond.imp_right (fun hh => by omega)) hc
        | succ j' =>
          exact ih.mpr ⟨j', b', by simpa using hg, hid, hcond.imp_right (fun hh => by omega)⟩

/-! ### Behavior of the recovery scan -/

/-- When every candidate fails to read, validate or verify, the scan returns
`null` and leaves the state untouched. -/
theorem restoreScan_none : ∀ (l : List BackupInfo) (fs : FS),
    (∀ b ∈ l, backupRead fs b = none) → restoreScan fs l = (none, fs)
  | [], _, _ => rfl
  | b :: rest, fs, h => by
    simp [restoreScan, h b (by simp),
      restoreScan_none rest fs (fun b' hb => h b' (by simp [hb]))]

/-- When every candidate before position `j` fails and the one at `j` passes
with content `v`, the scan promotes `v`: the live file is overwritten with
the backup's bytes, everything else untouched. -/
theorem restoreScan_found : ∀ (l : List BackupInfo) (fs : FS) (j : Nat) (bj : BackupInfo)
    (v : Json), l.get? j = some bj →
    (∀ i b', i < j → l.get? i = some b' → backupRead fs b' = none) →
    backupRead fs bj = some v →
    restoreScan fs l = (some v, { fs with live := some (.jsonC v) })
  | [], _, j, _, _, hg, _, _ => by simp at hg
  | b :: rest, fs, 0, bj, v, hg, _, hread => by
    simp only [List.get?] at hg
    cases hg
    simp [restoreScan, hread]
  | b :: rest, fs, j + 1, bj, v, hg, hskip, hread => by
    have hb : backupRead fs b = none := hskip 0 b (by omega) rfl
    simp only [restoreScan, hb]
    exact restoreScan_found rest fs j bj v (by simpa using hg)
      (fun i b' hi hg' => hskip (i + 1) b' (by omega) (by simpa using hg')) hread

/-- A live document that is unparseable, schema-invalid or checksum-failing
sends `load` into backup recovery. -/
theorem loadM_bad (fs : FS) (c : FileContent) (hl : fs.live = some c)
    (hb : liveBad c = true) : loadM fs = tryRestoreFromBackupM fs := by
  cases c with
  | corruptC t => simp [loadM, hl]
  | jsonC v =>
    by_cases hv : validateSchema v
    · have hvc : validateChecksum v = false := by
        simp [liveBad, hv] at hb
        exact hb
      simp [loadM, hl, hv, hvc]
    · simp [loadM, hl, hv]

/-- What a listed entry looks like: only readable `.json` files are listed,
under the id `file.replace('.json', '')`. -/
theorem entryInfo_some_name (e : BFile) (b : BackupInfo) (h : entryInfo e = some b) :
    e.name.ext = ".json" ∧ b.id = e.name.base := by
  unfold entryInfo at h
  by_cases hx : e.name.ext = ".json"
  · refine ⟨hx, ?_⟩
    simp [hx] at h
    by_cases hr : e.readFails
    · simp [hr] at h
    · simp [hr] at h
      cases hc : e.content with
      | corruptC t => rw [hc] at h; simp at h
      | jsonC v =>
        rw [hc] at h
        simp at h
        rw [← h]
  · simp [hx] at h

/-! ## The claims -/

/-- C1 (corrected). For schema-validation failures, staging-write failures
and staged-bytes re-validation failures — the failures `saveAtomic` actually
raises before the rename — the error is propagated, the live document is
byte-for-byte unchanged and the staging file is discarded. (The claim's
fourth case, a backup-copy failure, is removed: the source swallows it, see
the counterexample.) -/
theorem claimC1_prefail_leaves_live_unchanged :
    ∀ (fs : FS) (data : Json) (f : WriteFaults) (now : Nat),
    validateSchema data = false ∨ f.stagingWrite = true ∨ readBackFails f = true →
    (saveAtomicM fs data f now).isErr = true ∧
    (saveAtomicM fs data f now).fsOf.live = fs.live ∧
    (saveAtomicM fs data f now).fsOf.temp = none := by
  intro fs data f now h
  rcases h with h | h | h
  · simp [saveAtomicM, h, Res.isErr, Res.fsOf]
  · by_cases hv : validateSchema data
    · simp [saveAtomicM, hv, h, Res.isErr, Res.fsOf]
    · simp [saveAtomicM, hv, Res.isErr, Res.fsOf]
  · by_cases hv : validateSchema data
    · by_cases hw : f.stagingWrite
      · simp [saveAtomicM, hv, hw, Res.isErr, Res.fsOf]
      · unfold readBackFails at h
        cases hrb : f.stagingReadBack with
        | none => rw [hrb] at h; cases h
        | some cbad =>
          rw [hrb] at h
          cases cbad with
          | corruptC t => simp [saveAtomicM, hv, hw, hrb, Res.isErr, Res.fsOf]
          | jsonC w =>
            simp only [Bool.not_eq_true'] at h
            simp [saveAtomicM, hv, hw, hrb, h, Res.isErr, Res.fsOf]
    · simp [saveAtomicM, hv, Res.isErr, Res.fsOf]

/-- C1 witness: a schema-invalid document is rejected with an error, the live
document and the (absent) staging file untouched. -/
theorem claimC1_witness :
    (saveAtomicM fsLiveA docBad noFaults 3).isErr = true ∧
    (saveAtomicM fsLiveA docBad noFaults 3).fsOf.live = fsLiveA.live ∧
    (saveAtomicM fsLiveA docBad noFaults 3).fsOf.temp = none :=
  claimC1_prefail_leaves_live_unchanged fsLiveA docBad noFaults 3 (Or.inl (by decide))

/-- C1 counterexample: when the pre-write backup copy fails, `saveAtomic`
does not return an error at all — the inner `try` swallows the failure, the
rename goes ahead, and the live document is replaced (without any new
recovery point). This falsifies the claim's inclusion of backup-copy
failures among the failures after which persist returns an error with the
live document unchanged. -/
theorem claimC1_counterexample :
    saveAtomicM fsLiveA docB backupCopyFault 6 = .ok () ⟨some (.jsonC docB), none, some []⟩ ∧
    fsLiveA.live = some (.jsonC docA) ∧ docA ≠ docB ∧
    ¬((saveAtomicM fsLiveA docB backupCopyFault 6).isErr = true ∧
      (saveAtomicM fsLiveA docB backupCopyFault 6).fsOf.live = fsLiveA.live) := by
  refine ⟨by decide, by decide, by decide, ?_⟩
  intro hcontra
  have := hcontra.1
  revert this
  decide

/-- C2 (code bug). Two `save` calls queued together yield two persisted
writes: the first call's document is persisted (and then overwritten by the
second), not coalesced away. The repository's own documentation promises
that multiple rapid changes are grouped into a single write after 500 ms of
quiescence, but `save` enqueues one full write per call and `processQueue`
executes every one of them. -/
theorem claimC2_two_saves_two_writes :
    (processQueueM ⟨none, none, some []⟩ [mkDoc 1 "1" "1" "", mkDoc 2 "2" "2" ""] 10).2 =
      [refreshWithSync (mkDoc 1 "1" "1" "") 10, refreshWithSync (mkDoc 2 "2" "2" "") 11] ∧
    (processQueueM ⟨none, none, some []⟩ [mkDoc 1 "1" "1" "", mkDoc 2 "2" "2" ""] 10).2.length = 2 ∧
    refreshWithSync (mkDoc 1 "1" "1" "") 10 ≠ refreshWithSync (mkDoc 2 "2" "2" "") 11 ∧
    (processQueueM ⟨none, none, some []⟩ [mkDoc 1 "1" "1" "", mkDoc 2 "2" "2" ""] 10).1.live =
      some (.jsonC (refreshWithSync (mkDoc 2 "2" "2" "") 11)) := by
  refine ⟨by decide, by decide, by decide, by decide⟩

/-- C5 (code bug). `createBackup` loads a document whose stored checksum
verifies, then stamps a fresh `metadata.lastBackup` into the snapshot
without recomputing the checksum, and stores it: the stored snapshot's
checksum is stale with respect to its own content, so `validateChecksum`
rejects the very snapshot the operation just created. -/
theorem claimC5_createBackup_stores_stale_checksum :
    validateChecksum docA = true ∧
    createBackupM fsLiveA 999 defaultCfg =
      .ok "backup-999" ⟨some (.jsonC docA), none,
        some [⟨⟨"backup-999", ".json"⟩, .jsonC (bumpLastBackup docA 999),
          (jsonStringify (bumpLastBackup docA 999)).length, 999, false⟩]⟩ ∧
    validateChecksum (bumpLastBackup docA 999) = false := by
  refine ⟨by decide, by decide, by decide⟩

/-- C6 (corrected). `load` returns the same observable `null` in both empty
outcomes: a missing live file on first run returns `null` directly, and a
bad live file whose every backup fails to read, validate or verify also
returns `null` — the caller cannot distinguish the two from the returned
value. -/
theorem claimC6_load_null_in_both_empty_cases :
    (∀ fs : FS, fs.live = none → loadM fs = (none, fs)) ∧
    (∀ (fs : FS) (c : FileContent), fs.live = some c → liveBad c = true →
      (∀ b ∈ listBackupsM fs, backupRead fs b = none) → (loadM fs).1 = none) := by
  constructor
  · intro fs h
    simp [loadM, h]
  · intro fs c hl hb hall
    rw [loadM_bad fs c hl hb]
    have hscan : restoreScan fs (sortDesc (listBackupsM fs)) = (none, fs) :=
      restoreScan_none _ fs
        (fun b hbmem => hall b ((List.mem_insertionSort descLE).mp hbmem))
    simp [tryRestoreFromBackupM, hscan]

/-- C6 witness: the first-run state and a recovery-exhausted state both make
`load` return `null`. -/
theorem claimC6_witness :
    loadM fsFirstRun = (none, fsFirstRun) ∧ (loadM fsExhausted).1 = none :=
  ⟨claimC6_load_null_in_both_empty_cases.1 fsFirstRun rfl,
   claimC6_load_null_in_both_empty_cases.2 fsExhausted (.corruptC 7) rfl (by decide) (by decide)⟩

/-- C6 counterexample: the claim says the two empty outcomes are observably
different to the caller; in the code both return the same `null` value. -/
theorem claimC6_counterexample :
    (loadM fsFirstRun).1 = (loadM fsExhausted).1 ∧
    (loadM fsFirstRun).1 = none ∧
    fsFirstRun.live = none ∧
    fsExhausted.live = some (.corruptC 7) ∧
    listBackupsM fsExhausted ≠ [] := by
  refine ⟨by decide, by decide, by decide, by decide, by decide⟩

/-- C10 (confirmed). `listBackups` never fails because of an individual bad
snapshot: a missing backup directory yields `[]`; a non-`.json` name, an
unreadable file or unparseable bytes contribute nothing; removing such an
entry from anywhere in the directory leaves the listing unchanged; and every
readable, parseable `.json` entry is still returned. -/
theorem claimC10_listBackups_skips_bad_entries :
    (∀ (live temp : Option FileContent), listBackupsM ⟨live, temp, none⟩ = []) ∧
    (∀ e : BFile,
      e.name.ext ≠ ".json" ∨ e.readFails = true ∨ (∃ t, e.content = .corruptC t) →
      entryInfo e = none) ∧
    (∀ (live temp : Option FileContent) (es1 es2 : List BFile) (e : BFile),
      entryInfo e = none →
      listBackupsM ⟨live, temp, some (es1 ++ e :: es2)⟩ =
        listBackupsM ⟨live, temp, some (es1 ++ es2)⟩) ∧
    (∀ (live temp : Option FileContent) (es : List BFile) (e : BFile) (b : BackupInfo),
      e ∈ es → entryInfo e = some b → b ∈ listBackupsM ⟨live, temp, some es⟩) := by
  refine ⟨fun _ _ => rfl, ?_, ?_, ?_⟩
  · rintro e (h | h | ⟨t, h⟩)
    · simp [entryInfo, h]
    · by_cases hx : e.name.ext = ".json" <;> simp [entryInfo, hx, h]
    · by_cases hx : e.name.ext = ".json" <;> by_cases hr : e.readFails <;>
        simp [entryInfo, hx, hr, h]
  · intro live temp es1 es2 e he
    simp [listBackupsM, List.filterMap_append, he]
  · intro live temp es e b he hei
    simp only [listBackupsM, List.mem_filterMap]
    exact ⟨e, he, hei⟩

/-- C10 witness: dropping a corrupt snapshot leaves the listing unchanged, a
good entry is still listed, and a missing directory lists as empty. -/
theorem claimC10_witness :
    listBackupsM ⟨none, none, some ([bakEntry "g" 2] ++ entryCorrupt :: [])⟩ =
      listBackupsM ⟨none, none, some ([bakEntry "g" 2] ++ [])⟩ ∧
    (⟨"g", "2", 1, ""⟩ : BackupInfo) ∈ listBackupsM ⟨none, none, some [bakEntry "g" 2]⟩ ∧
    listBackupsM ⟨none, none, (none : Option (List BFile))⟩ = [] :=
  ⟨claimC10_listBackups_skips_bad_entries.2.2.1 none none [bakEntry "g" 2] [] entryCorrupt
      (by decide),
   claimC10_listBackups_skips_bad_entries.2.2.2 none none [bakEntry "g" 2] (bakEntry "g" 2)
      ⟨"g", "2", 1, ""⟩ (by decide) (by decide),
   claimC10_listBackups_skips_bad_entries.1 none none⟩

/-- C7 (confirmed). `restoreBackup(id)`: an unknown id fails with the
not-found error and the state — in particular the live document — is exactly
unchanged; corrupt snapshot bytes fail with the parse error and a parseable
but schema-invalid snapshot with the invalid-schema error (both of the
structural class), again with the state unchanged; a valid snapshot is
promoted through `saveAtomic` itself — staging, pre-write backup of the old
live file, swap — never by a direct overwrite of the live slot. -/
theorem claimC7_restoreBackup_spec :
    ∀ (fs : FS) (backupId : String) (f : WriteFaults) (now : Nat),
    (findBFile fs ⟨backupId, ".json"⟩ = none →
      restoreBackupM fs backupId f now = .err (.notFoundBackup backupId) fs) ∧
    (∀ e : BFile, findBFile fs ⟨backupId, ".json"⟩ = some e → e.readFails = false →
      ((∃ t, e.content = .corruptC t) →
        restoreBackupM fs backupId f now = .err .parseError fs ∧
          structuralErr .parseError = true) ∧
      (∀ v, e.content = .jsonC v → validateSchema v = false →
        restoreBackupM fs backupId f now = .err .backupSchemaInvalid fs ∧
          structuralErr .backupSchemaInvalid = true)) ∧
    (∀ (e : BFile) (v : Json), findBFile fs ⟨backupId, ".json"⟩ = some e →
      e.readFails = false → e.content = .jsonC v → validateSchema v = true →
      restoreBackupM fs backupId f now = saveAtomicM fs v f now ∧
      (∀ (c : FileContent) (es : List BFile), fs.live = some c → fs.backupDir = some es →
        saveAtomicM fs v noFaults now =
          .ok () ⟨some (.jsonC v), none, some (writeBackupFile es
            ⟨⟨"studioflow-" ++ fnameTs now, ".json"⟩, c, contentSize c, now, false⟩)⟩ ∧
        (⟨⟨"studioflow-" ++ fnameTs now, ".json"⟩, c, contentSize c, now, false⟩ : BFile) ∈
          writeBackupFile es
            ⟨⟨"studioflow-" ++ fnameTs now, ".json"⟩, c, contentSize c, now, false⟩)) := by
  intro fs backupId f now
  refine ⟨?_, ?_, ?_⟩
  · intro h
    simp [restoreBackupM, h]
  · intro e he hr
    constructor
    · rintro ⟨t, hc⟩
      exact ⟨by simp [restoreBackupM, he, hr, hc], rfl⟩
    · intro v hc hv
      exact ⟨by simp [restoreBackupM, he, hr, hc, hv], rfl⟩
  · intro e v he hr hc hv
    refine ⟨by simp [restoreBackupM, he, hr, hc, hv], ?_⟩
    intro c es hl hb
    exact ⟨saveAtomicM_noFaults_full fs v now c es hv hl hb, mem_writeBackupFile es _⟩

/-- C7 witness: an unknown id, a corrupt snapshot and a valid snapshot, each
behaving as the theorem states on a concrete directory. -/
theorem claimC7_witness :
    restoreBackupM fsRestoreA "nope" noFaults 50 = .err (.notFoundBackup "nope") fsRestoreA ∧
    restoreBackupM fsRestoreBad "bc" noFaults 50 = .err .parseError fsRestoreBad ∧
    restoreBackupM fsRestoreA "b1" noFaults 50 = saveAtomicM fsRestoreA docB noFaults 50 :=
  ⟨(claimC7_restoreBackup_spec fsRestoreA "nope" noFaults 50).1 (by decide),
   (((claimC7_restoreBackup_spec fsRestoreBad "bc" noFaults 50).2.1
      ⟨⟨"bc", ".json"⟩, .corruptC 3, 3, 4, false⟩ (by decide) (by decide)).1 ⟨3, rfl⟩).1,
   ((claimC7_restoreBackup_spec fsRestoreA "b1" noFaults 50).2.2 (goodBak "b1" docB 5) docB
      (by decide) (by decide) (by decide) (by decide)).1⟩

/-- C8 (corrected). `flush` drains the queue by running every pending save to
completion, in order — it does not cancel a debounce timer and persist only
the latest pending document; each queued document is persisted (after its
debounce sleep). What survives of the claim: when `flush` resolves the queue
is fully processed and the live document equals the last `save` call's
document (refreshed with its sync stamp and checksum), so the last window is
not lost at shutdown. -/
theorem claimC8_flush_drains_queue :
    ∀ (fs : FS) (docs : List Json) (now : Nat),
    (∀ d ∈ docs, validateSchema d = true) →
    (flushM fs docs now).2 = refreshedDocs docs now ∧
    (∀ (ds : List Json) (d : Json), docs = ds ++ [d] →
      (flushM fs docs now).1.live = some (.jsonC (refreshWithSync d (now + ds.length)))) := by
  intro fs docs now h
  have hs := processQueueM_spec docs fs now h
  refine ⟨hs.1, ?_⟩
  rintro ds d rfl
  show (processQueueM fs (ds ++ [d]) now).1.live = _
  rw [hs.2, lastLive_append]

/-- C8 witness: flushing a queue of two pending saves persists both, and the
live document afterwards is the refresh of the second (last) one. -/
theorem claimC8_witness :
    (flushM ⟨none, none, some []⟩ [mkDoc 4 "4" "4" "", mkDoc 5 "5" "5" ""] 20).2 =
      refreshedDocs [mkDoc 4 "4" "4" "", mkDoc 5 "5" "5" ""] 20 ∧
    (flushM ⟨none, none, some []⟩ [mkDoc 4 "4" "4" "", mkDoc 5 "5" "5" ""] 20).1.live =
      some (.jsonC (refreshWithSync (mkDoc 5 "5" "5" "") (20 + [mkDoc 4 "4" "4" ""].length))) := by
  have h := claimC8_flush_drains_queue ⟨none, none, some []⟩
    [mkDoc 4 "4" "4" "", mkDoc 5 "5" "5" ""] 20 (by decide)
  exact ⟨h.1, h.2 [mkDoc 4 "4" "4" ""] (mkDoc 5 "5" "5" "") rfl⟩

/-- C9 (corrected). When a live document exists (and loads cleanly),
`createBackup` returns the fresh timestamp-derived identifier and stores a
snapshot whose bytes are the live document with `metadata.lastBackup`
replaced by the backup instant — not a byte-equal copy of the live content
(see the counterexample). The snapshot survives the retention sweep that
`createBackup` runs before returning. -/
theorem claimC9_createBackup_snapshot (fs : FS) (v : Json) (es : List BFile) (now : Nat)
    (cfg : Cfg) (hl : fs.live = some (.jsonC v)) (hv : validateSchema v = true)
    (hvc : validateChecksum v = true) (hb : fs.backupDir = some es)
    (hcap : es.length < cfg.maxBackups)
    (hfresh : ∀ e ∈ es, e.name ≠ ⟨"backup-" ++ fnameTs now, ".json"⟩)
    (hclock : dateGetTime (isoStr now) = now) :
    okId (createBackupM fs now cfg) = some ("backup-" ++ fnameTs now) ∧
    (⟨⟨"backup-" ++ fnameTs now, ".json"⟩, .jsonC (bumpLastBackup v now),
      (jsonStringify (bumpLastBackup v now)).length, now, false⟩ : BFile) ∈
      (createBackupM fs now cfg).fsOf.backupDir.getD [] := by
  have hnempty : isoStr now ≠ "" := by
    intro h0
    rw [h0] at hclock
    have hz : now = 0 := hclock.symm
    rw [hz] at h0
    exact absurd h0 (by decide)
  have hload : loadM fs = (some v, fs) := by
    simp [loadM, hl, hv, hvc]
  set bf : BFile := ⟨⟨"backup-" ++ fnameTs now, ".json"⟩, .jsonC (bumpLastBackup v now),
    (jsonStringify (bumpLastBackup v now)).length, now, false⟩ with hbf
  have hwrite : writeBackupFile es bf = es ++ [bf] :=
    writeBackupFile_fresh es bf (fun e he => hfresh e he)
  have hwrite2 : writeBackupFile es
      ⟨⟨"backup-" ++ fnameTs now, ".json"⟩,
       .jsonC (objSet v "metadata" (objSet (metaOf v) "lastBackup" (.str (isoStr now)))),
       (jsonStringify (objSet v "metadata" (objSet (metaOf v) "lastBackup"
         (.str (isoStr now))))).length, now, false⟩ = es ++ [bf] := hwrite
  have hstep : createBackupM fs now cfg =
      .ok ("backup-" ++ fnameTs now)
        (cleanOldBackups { fs with backupDir := some (es ++ [bf]) } now cfg) := by
    rw [createBackupM, hload]
    simp only [hb, hwrite2]
  set fs2 : FS := { fs with backupDir := some (es ++ [bf]) } with hfs2
  have hinfo : entryInfo bf = some ⟨"backup-" ++ fnameTs now, isoStr now,
      (jsonStringify (bumpLastBackup v now)).length, match jget2 (bumpLastBackup v now) "metadata" "checksum" with
        | some (.str s) => s
        | _ => ""⟩ := by
    have hm : jget (bumpLastBackup v now) "metadata" =
        some (objSet (metaOf v) "lastBackup" (.str (isoStr now))) := jget_objSet_self _ _ _
    have hlb : jget (objSet (metaOf v) "lastBackup" (.str (isoStr now))) "lastBackup" =
        some (.str (isoStr now)) := jget_objSet_self _ _ _
    simp only [entryInfo, hbf]
    rw [if_neg (by simp), if_neg (by simp)]
    simp [jget2, hm, hlb, hnempty]
  -- the fresh snapshot's id is never evicted
  have hnotrem : ("backup-" ++ fnameTs now) ∉
      remIds (sortAsc (listBackupsM fs2)) 0
        (cutoffMs now cfg.backupRetentionDays)
        ((sortAsc (listBackupsM fs2)).length - cfg.maxBackups) := by
    have hthr : (sortAsc (listBackupsM fs2)).length - cfg.maxBackups = 0 := by
      have h1 : (listBackupsM fs2).length ≤ es.length + 1 := by
        have : listBackupsM fs2 = (es ++ [bf]).filterMap entryInfo := by
          simp [listBackupsM, hfs2]
        rw [this]
        calc ((es ++ [bf]).filterMap entryInfo).length ≤ (es ++ [bf]).length :=
              List.length_filterMap_le _ _
          _ = es.length + 1 := by simp
      rw [sortAsc, List.length_insertionSort]
      omega
    rw [hthr]
    intro hmem
    obtain ⟨j, b', hget, hid, hcond⟩ := (mem_remIds _ 0 _ 0 _).mp hmem
    have hcut : tsKey b' < cutoffMs now cfg.backupRetentionDays := by
      rcases hcond with h | h
      · exact h
      · omega
    have hb'mem : b' ∈ listBackupsM fs2 :=
      (List.mem_insertionSort ascLE).mp (List.get?_mem hget)
    have : ∃ e ∈ es ++ [bf], entryInfo e = some b' := by
      have : listBackupsM fs2 = (es ++ [bf]).filterMap entryInfo := by
        simp [listBackupsM, hfs2]
      rw [this] at hb'mem
      exact List.mem_filterMap.mp hb'mem
    obtain ⟨e, hemem, hei⟩ := this
    rcases List.mem_append.mp hemem with hin | hinbf
    · obtain ⟨hext, hbase⟩ := entryInfo_some_name e b' hei
      have hename : e.name = ⟨"backup-" ++ fnameTs now, ".json"⟩ := by
        have h1 : e.name.base = "backup-" ++ fnameTs now := by
          rw [← hbase]
          exact hid
        calc e.name = ⟨e.name.base, e.name.ext⟩ := rfl
          _ = ⟨"backup-" ++ fnameTs now, ".json"⟩ := by rw [h1, hext]
      exact hfresh e hin hename
    · have hebf : e = bf := by simpa using hinbf
      rw [hebf, hinfo] at hei
      have hb'eq : b'.timestamp = isoStr now := by
        cases hei
        rfl
      have : tsKey b' = now := by
        rw [tsKey, hb'eq, hclock]
      rw [this] at hcut
      have : cutoffMs now cfg.backupRetentionDays ≤ now := Nat.sub_le _ _
      omega
  refine ⟨by rw [hstep]; rfl, ?_⟩
  rw [hstep]
  show bf ∈ (cleanOldBackups fs2 now cfg).backupDir.getD []
  have hclean : (cleanOldBackups fs2 now cfg).backupDir =
      some ((es ++ [bf]).filter (fun e =>
        !(e.name.ext = ".json" &&
          (remIds (sortAsc (listBackupsM fs2)) 0 (cutoffMs now cfg.backupRetentionDays)
            ((sortAsc (listBackupsM fs2)).length - cfg.maxBackups)).contains e.name.base))) := rfl
  rw [hclean, Option.getD_some]
  have hcontains : (remIds (sortAsc (listBackupsM fs2)) 0
      (cutoffMs now cfg.backupRetentionDays)
      ((sortAsc (listBackupsM fs2)).length - cfg.maxBackups)).contains
        ("backup-" ++ fnameTs now) = false := by
    rw [Bool.eq_false_iff]
    intro hc
    exact hnotrem (by simpa using hc)
  refine List.mem_filter.mpr ⟨List.mem_append_right _ (by simp), ?_⟩
  simp only [hbf, Bool.not_eq_true', Bool.and_eq_false_iff]
  right
  exact hcontains

/-- C8 counterexample: with two documents pending, `flush` persists two
writes — the first pending document is persisted too, not cancelled in favor
of the latest — refuting "flush immediately persists [only] the latest
pending document". -/
theorem claimC8_counterexample :
    (flushM ⟨none, none, some []⟩ [mkDoc 6 "6" "6" "", mkDoc 7 "7" "7" ""] 30).2.length = 2 ∧
    (flushM ⟨none, none, some []⟩ [mkDoc 6 "6" "6" "", mkDoc 7 "7" "7" ""] 30).2.head? =
      some (refreshWithSync (mkDoc 6 "6" "6" "") 30) ∧
    refreshWithSync (mkDoc 6 "6" "6" "") 30 ≠ refreshWithSync (mkDoc 7 "7" "7" "") 31 := by
  refine ⟨by decide, by decide, by decide⟩

/-- C9 counterexample: right after a save of `docA`, `createBackup` at
instant 7 stores a snapshot whose bytes differ from the live content — the
snapshot carries `metadata.lastBackup = 7` while the live document still
carries the old value, so the snapshot is not byte-equal to the live
document at that instant. -/
theorem claimC9_counterexample :
    createBackupM fsLiveA 7 defaultCfg =
      .ok "backup-7" ⟨some (.jsonC docA), none,
        some [⟨⟨"backup-7", ".json"⟩, .jsonC (bumpLastBackup docA 7),
          (jsonStringify (bumpLastBackup docA 7)).length, 7, false⟩]⟩ ∧
    fsLiveA.live = some (.jsonC docA) ∧
    (FileContent.jsonC (bumpLastBackup docA 7)) ≠ (FileContent.jsonC docA) := by
  refine ⟨by decide, by decide, by decide⟩

/-- C9 witness: the amended theorem at a concrete state — the returned id
and the stored lastBackup-stamped snapshot. -/
theorem claimC9_witness :
    okId (createBackupM fsLiveA 12 defaultCfg) = some ("backup-" ++ fnameTs 12) ∧
    (⟨⟨"backup-" ++ fnameTs 12, ".json"⟩, .jsonC (bumpLastBackup docA 12),
      (jsonStringify (bumpLastBackup docA 12)).length, 12, false⟩ : BFile) ∈
      (createBackupM fsLiveA 12 defaultCfg).fsOf.backupDir.getD [] :=
  claimC9_createBackup_snapshot fsLiveA docA [] 12 defaultCfg rfl (by decide) (by decide)
    rfl (by decide) (by decide) (by decide)

/-- C3 (corrected). When the live document is unparseable, structurally
invalid or checksum-failing (but not when it is absent — absence returns the
empty sentinel without attempting recovery, see the counterexample),
recovery sorts the backup listing newest-first and scans it in order: if no
candidate reads, validates and verifies, `load` returns `null` with the
state untouched; the first candidate passing both schema validation and
checksum verification is written directly over the live file — its raw bytes,
not the Atomic Writer's staging+swap path — and its content returned. -/
theorem claimC3_recovery_spec :
    (∀ fs : FS, fs.live = none → loadM fs = (none, fs)) ∧
    (∀ (fs : FS) (c : FileContent), fs.live = some c → liveBad c = true →
      (List.Sorted descLE (sortDesc (listBackupsM fs)) ∧
        (sortDesc (listBackupsM fs)).Perm (listBackupsM fs)) ∧
      ((∀ b ∈ sortDesc (listBackupsM fs), backupRead fs b = none) → loadM fs = (none, fs)) ∧
      (∀ (j : Nat) (bj : BackupInfo) (v : Json),
        (sortDesc (listBackupsM fs)).get? j = some bj →
        (∀ (i : Nat) (b' : BackupInfo), i < j →
          (sortDesc (listBackupsM fs)).get? i = some b' → backupRead fs b' = none) →
        backupRead fs bj = some v →
        loadM fs = (some v, { fs with live := some (.jsonC v) }))) := by
  refine ⟨?_, ?_⟩
  · intro fs h
    simp [loadM, h]
  · intro fs c hl hb
    refine ⟨⟨List.sorted_insertionSort descLE _, List.perm_insertionSort descLE _⟩, ?_, ?_⟩
    · intro hall
      rw [loadM_bad fs c hl hb]
      show tryRestoreFromBackupM fs = _
      rw [tryRestoreFromBackupM]
      exact restoreScan_none _ fs hall
    · intro j bj v hget hskip hread
      rw [loadM_bad fs c hl hb]
      show tryRestoreFromBackupM fs = _
      rw [tryRestoreFromBackupM]
      exact restoreScan_found _ fs j bj v hget hskip hread

/-- C3 counterexample: (a) with no live document and a backup that passes
both checks available, `load` returns `null` without recovering — the claim's
"absent" trigger is false; (b) promotion of a verifying backup writes its
bytes directly over the live file: the backup directory gains no pre-write
snapshot and the state differs from what the Atomic Writer's staging+swap
path (`saveAtomic`) would have produced. -/
theorem claimC3_counterexample :
    loadM fsNoLiveGoodBak = (none, fsNoLiveGoodBak) ∧
    (listBackupsM fsNoLiveGoodBak).length = 1 ∧
    allCandidatesPass fsNoLiveGoodBak = true ∧
    loadM fsCorruptGoodBak = (some docA, ⟨some (.jsonC docA), none, some [bakGoodB1]⟩) ∧
    (saveAtomicM fsCorruptGoodBak docA noFaults 9).fsOf ≠ (loadM fsCorruptGoodBak).2 := by
  refine ⟨by decide, by decide, by decide, by decide, by decide⟩

/-- C3 witness: the spec's recovery-chain scenario — of the listed
candidates the newest fails verification and the second-newest passes, so
`load` returns the second-newest backup's content and promotes it to live. -/
theorem claimC3_witness :
    loadM fsChain = (some docB, { fsChain with live := some (.jsonC docB) }) := by
  have h := (claimC3_recovery_spec.2 fsChain (.corruptC 1) rfl (by decide)).2.2 1
    ((sortDesc (listBackupsM fsChain)).get ⟨1, by decide⟩) docB ?_ ?_ ?_
  · exact h
  · decide
  · intro i b' hi hget
    interval_cases i
    have hx : (sortDesc (listBackupsM fsChain)).get? 0 =
        some ((sortDesc (listBackupsM fsChain)).get ⟨0, by decide⟩) := by decide
    rw [hx] at hget
    cases hget
    decide
  · decide

/-- C4 (confirmed). After a retention sweep: the listing is sorted
oldest-first by timestamp (a permutation of itself); every listed backup
older than the horizon is removed regardless of how many remain; every
backup at a sorted position below `length - maxBackups` (the oldest beyond
the cap) is removed; and — when the listed ids are distinct — a backup at or
above that position whose timestamp is inside the horizon survives, so
exactly the `maxBackups` newest in-horizon backups remain. -/
theorem claimC4_retention_sweep (fs : FS) (now : Nat) (cfg : Cfg) :
    (List.Sorted ascLE (sortAsc (listBackupsM fs)) ∧
      (sortAsc (listBackupsM fs)).Perm (listBackupsM fs)) ∧
    (∀ b ∈ listBackupsM fs, tsKey b < cutoffMs now cfg.backupRetentionDays →
      survives (cleanOldBackups fs now cfg) b.id = false) ∧
    (∀ (j : Nat) (b : BackupInfo), (sortAsc (listBackupsM fs)).get? j = some b →
      j < (sortAsc (listBackupsM fs)).length - cfg.maxBackups →
      survives (cleanOldBackups fs now cfg) b.id = false) ∧
    (((listBackupsM fs).map BackupInfo.id).Nodup →
      ∀ (j : Nat) (b : BackupInfo), (sortAsc (listBackupsM fs)).get? j = some b →
      (sortAsc (listBackupsM fs)).length - cfg.maxBackups ≤ j →
      cutoffMs now cfg.backupRetentionDays ≤ tsKey b →
      survives (cleanOldBackups fs now cfg) b.id = true) := by
  set cut := cutoffMs now cfg.backupRetentionDays with hcut
  set sorted := sortAsc (listBackupsM fs) with hsorted
  set thr := sorted.length - cfg.maxBackups with hthr
  set rem := remIds sorted 0 cut thr with hrem
  -- evicted ids are gone from the directory
  have hkill : ∀ s : String, s ∈ rem →
      survives (cleanOldBackups fs now cfg) s = false := by
    intro s hs
    cases hbd : fs.backupDir with
    | none =>
      show survives (cleanOldBackups fs now cfg) s = false
      rw [cleanOldBackups]
      simp [hbd, survives]
    | some es =>
      have hclean : (cleanOldBackups fs now cfg).backupDir =
          some (es.filter (fun e => !(e.name.ext = ".json" && rem.contains e.name.base))) := by
        rw [cleanOldBackups]
        simp only [hbd]
      rw [survives, hclean, Option.getD_some, Bool.eq_false_iff]
      intro hany
      obtain ⟨e, hmem, hname⟩ := List.any_eq_true.mp hany
      obtain ⟨-, hpred⟩ := List.mem_filter.mp hmem
      have hname2 : e.name = ⟨s, ".json"⟩ := by simpa using hname
      rw [hname2] at hpred
      simp only [Bool.not_eq_true', Bool.and_eq_false_iff, decide_eq_false_iff_not] at hpred
      rcases hpred with h | h
      · exact h trivial
      · rw [Bool.eq_false_iff] at h
        exact h (by simpa using hs)
  refine ⟨⟨List.sorted_insertionSort ascLE _, List.perm_insertionSort ascLE _⟩, ?_, ?_, ?_⟩
  · intro b hb hkey
    refine hkill b.id ?_
    obtain ⟨j, hget⟩ := List.mem_iff_get?.mp ((List.mem_insertionSort ascLE).mpr hb)
    exact (mem_remIds sorted 0 cut thr b.id).mpr ⟨j, b, hget, rfl, Or.inl hkey⟩
  · intro j b hget hj
    exact hkill b.id ((mem_remIds sorted 0 cut thr b.id).mpr
      ⟨j, b, hget, rfl, Or.inr (by omega)⟩)
  · intro hnodup j b hget hj hkey
    have hbmem : b ∈ listBackupsM fs :=
      (List.mem_insertionSort ascLE).mp (List.get?_mem hget)
    -- the id is not evicted
    have hnotrem : b.id ∉ rem := by
      intro hmem
      obtain ⟨j', b'', hget', hid', hcond⟩ := (mem_remIds sorted 0 cut thr b.id).mp hmem
      have hnodup2 : (sorted.map BackupInfo.id).Nodup := by
        refine (List.Perm.nodup_iff (List.Perm.map BackupInfo.id ?_)).mpr hnodup
        exact List.perm_insertionSort ascLE _
      have hjlen : j < sorted.length := (List.get?_eq_some.mp hget).1
      have hmap1 : (sorted.map BackupInfo.id).get? j = some b.id := by
        rw [List.get?_map, hget]
        rfl
      have hmap2 : (sorted.map BackupInfo.id).get? j' = some b.id := by
        rw [List.get?_map, hget', Option.map_some', hid']
      have hjj : j = j' := by
        refine List.get?_inj ?_ hnodup2 (hmap1.trans hmap2.symm)
        simpa using hjlen
      rw [← hjj, hget] at hget'
      cases hget'
      rcases hcond with h | h
      · omega
      · omega
    -- find the directory entry behind the listing and show it is kept
    cases hbd : fs.backupDir with
    | none =>
      rw [listBackupsM, hbd] at hbmem
      cases hbmem
    | some es =>
      have hbmem2 : b ∈ es.filterMap entryInfo := by
        rw [listBackupsM, hbd] at hbmem
        exact hbmem
      obtain ⟨e, he, hei⟩ := List.mem_filterMap.mp hbmem2
      obtain ⟨hext, hbase⟩ := entryInfo_some_name e b hei
      have hname : e.name = ⟨b.id, ".json"⟩ := by
        calc e.name = ⟨e.name.base, e.name.ext⟩ := rfl
          _ = ⟨b.id, ".json"⟩ := by rw [← hbase, hext]
      have hclean : (cleanOldBackups fs now cfg).backupDir =
          some (es.filter (fun e => !(e.name.ext = ".json" && rem.contains e.name.base))) := by
        rw [cleanOldBackups]
        simp only [hbd]
      rw [survives, hclean, Option.getD_some]
      refine List.any_eq_true.mpr ⟨e, List.mem_filter.mpr ⟨he, ?_⟩, by simp [hname]⟩
      rw [hname]
      simp only [Bool.not_eq_true', Bool.and_eq_false_iff]
      right
      rw [Bool.eq_false_iff]
      intro hc
      exact hnotrem (by simpa using hc)

/-- C4 witness: the two spec scenarios. Fifteen in-horizon backups with cap
ten: the oldest (timestamp 101, sorted position 0) is gone, the newest
(timestamp 115) survives, and the directory afterwards is exactly the ten
newest. Three in-horizon plus twelve out-of-horizon backups: an
out-of-horizon one is gone even though fewer than ten remain, and exactly
the three in-horizon backups survive. -/
theorem claimC4_witness :
    survives (cleanOldBackups fs15 nowH defaultCfg) "a101" = false ∧
    survives (cleanOldBackups fs15 nowH defaultCfg) "a115" = true ∧
    (cleanOldBackups fs15 nowH defaultCfg).backupDir = some keep15 ∧
    survives (cleanOldBackups fs312 nowH defaultCfg) "o5" = false ∧
    (cleanOldBackups fs312 nowH defaultCfg).backupDir = some keep312 := by
  refine ⟨?_, ?_, by decide, ?_, by decide⟩
  · have h := (claimC4_retention_sweep fs15 nowH defaultCfg).2.2.1 0
      ((sortAsc (listBackupsM fs15)).get ⟨0, by decide⟩) (by decide) (by decide)
    have hid : ((sortAsc (listBackupsM fs15)).get ⟨0, by decide⟩).id = "a101" := by decide
    rw [hid] at h
    exact h
  · have h := (claimC4_retention_sweep fs15 nowH defaultCfg).2.2.2 (by decide) 14
      ((sortAsc (listBackupsM fs15)).get ⟨14, by decide⟩) (by decide) (by decide) (by decide)
    have hid : ((sortAsc (listBackupsM fs15)).get ⟨14, by decide⟩).id = "a115" := by decide
    rw [hid] at h
    exact h
  · have h := (claimC4_retention_sweep fs312 nowH defaultCfg).2.1
      ⟨"o5", "5", 1, ""⟩ (by decide) (by decide)
    exact h

end StudioFlow
